import Mathlib

/-
Verification development for the OCR validation harness in src/app.py and
src/image_distortions.py.

The Python program is shallowly embedded as follows.

* JSON values (the `Dict[str, Any]` payloads produced by `json.loads` and
  consumed by `json.dumps`) are the inductive type `Json`; a record
  (a Python dict of extracted form fields) is an association list
  `Record = List (String × Json)`, which models the insertion-ordered,
  unique-keyed Python dict.
* `json.dumps(d, sort_keys=True)` with its default separators `", "` and
  `": "` and default `ensure_ascii=True` escaping is the function `dumps`.
  Serialization recursion is driven by an explicit fuel argument so that the
  function is structurally recursive (hence kernel-computable); the fuel
  `jsonFuel j` counts every constructor and list cell of `j` and therefore
  strictly bounds the recursion depth of `serialize`, so the fuel never runs
  out on the value it is computed from (sorting a field list is a permutation
  and preserves `fieldsFuel`).
* `Levenshtein.ratio(a, b)` of the python-Levenshtein package is
  `(len(a) + len(b) - d) / (len(a) + len(b))` where `d` is the edit distance
  with substitution cost 2, which coincides with the pure
  insertion/deletion distance; `levAux` computes that distance with a fuel
  argument (again to stay structurally recursive), and `levSimilarity` is the
  ratio as a rational number (Python floats are modelled as ℚ).
* External effects (PIL image loading in `encode_image`, the Anthropic API
  calls in `get_claude_extraction` / `get_claude_analysis`) are oracles stored
  in the `OCRValidator` structure.  An API oracle takes the sequence number of
  the call as an extra argument, modelling that successive calls to the
  external service may answer differently; a result `.error e` models a raised
  exception, `.ok v` a normal return.  Python exception propagation is the
  `Except` monad.
-/

inductive Json where
  | null : Json
  | bool : Bool → Json
  | num : Int → Json
  | str : String → Json
  | arr : List Json → Json
  | obj : List (String × Json) → Json

/-- A Python dict of extracted fields: insertion-ordered key/value pairs.
In the source these are the values flowing between `json.loads`,
`compare_results` and `json.dumps`. -/
abbrev Record := List (String × Json)

mutual

/-- Structural size of a `Json` value, used as recursion fuel by `serialize`. -/
def jsonFuel : Json → Nat
  | .null => 1
  | .bool _ => 1
  | .num _ => 1
  | .str _ => 1
  | .arr xs => 1 + listFuel xs
  | .obj fs => 1 + fieldsFuel fs

def listFuel : List Json → Nat
  | [] => 1
  | x :: xs => 1 + jsonFuel x + listFuel xs

def fieldsFuel : List (String × Json) → Nat
  | [] => 1
  | (_, v) :: fs => 1 + jsonFuel v + fieldsFuel fs

end

/-- Code-point lexicographic order on strings (the `<` and `<=` of Python
strings, which `sorted` uses): a prefix precedes its extensions, otherwise the
first differing character decides. -/
def charListLe : List Char → List Char → Bool
  | [], _ => true
  | _ :: _, [] => false
  | a :: as, b :: bs => if a < b then true else if a = b then charListLe as bs else false

/-- Key order used by `json.dumps(..., sort_keys=True)`: `sorted(d.items())`
compares the key strings (keys of a dict are unique, so the tuple comparison
never reaches the values). -/
def keyLe (a b : String × Json) : Prop := charListLe a.1.data b.1.data = true

instance : DecidableRel keyLe := fun _ _ => instDecidableEqBool _ _

/-- The key sort performed by `json.dumps(..., sort_keys=True)`. -/
def sortFields (fs : List (String × Json)) : List (String × Json) :=
  List.insertionSort keyLe fs

def hexDigit (n : Nat) : Char := if n < 10 then Char.ofNat (48 + n) else Char.ofNat (87 + n)

/-- A `\uXXXX` escape, lower-case hex, as produced by the Python
`json.encoder` for non-printable and non-ASCII characters. -/
def uEscape (n : Nat) : String :=
  "\\u" ++ String.mk [hexDigit (n / 4096 % 16), hexDigit (n / 256 % 16),
    hexDigit (n / 16 % 16), hexDigit (n % 16)]

/-- Escaping of one character inside a JSON string literal, following
the Python `json.dumps` with the default `ensure_ascii=True`: `"` and `\` get a
backslash, the five control characters with short forms use them, every other
character outside the printable ASCII range `0x20..0x7e` becomes `\uXXXX`
(a surrogate pair beyond the BMP). -/
def escapeChar (c : Char) : String :=
  if c = '"' then "\\\""
  else if c = '\\' then "\\\\"
  else if c = '\n' then "\\n"
  else if c = '\t' then "\\t"
  else if c = '\r' then "\\r"
  else if c.toNat = 8 then "\\b"
  else if c.toNat = 12 then "\\f"
  else if 32 ≤ c.toNat ∧ c.toNat ≤ 126 then String.singleton c
  else if c.toNat ≤ 65535 then uEscape c.toNat
  else uEscape (55296 + (c.toNat - 65536) / 1024) ++ uEscape (56320 + (c.toNat - 65536) % 1024)

/-- A JSON string literal: quotes around the escaped characters. -/
def jsonQuote (s : String) : String := "\"" ++ String.join (s.data.map escapeChar) ++ "\""

/-- Work items of the serializer: a single value, the items of an array, or
the fields of an object. -/
inductive SerTask where
  | val : Json → SerTask
  | items : List Json → SerTask
  | fields : List (String × Json) → SerTask

/-- Fuelled core of `json.dumps(_, sort_keys=True)` with the default
separators `", "` and `": "`.  Object fields are sorted by key at every
nesting level before being emitted.  The fuel decreases on every recursive
call; `dumps` supplies `jsonFuel j`, which always suffices (see the header
comment), so the `0`-fuel fallbacks are never reached from `dumps`. -/
def serialize : Nat → SerTask → String
  | _, .val .null => "null"
  | _, .val (.bool true) => "true"
  | _, .val (.bool false) => "false"
  | _, .val (.num n) => toString n
  | _, .val (.str s) => jsonQuote s
  | 0, .val (.arr _) => ""
  | f + 1, .val (.arr xs) => "[" ++ serialize f (.items xs) ++ "]"
  | 0, .val (.obj _) => ""
  | f + 1, .val (.obj fs) => "\x7b" ++ serialize f (.fields (sortFields fs)) ++ "\x7d"
  | _, .items [] => ""
  | 0, .items (_ :: _) => ""
  | f + 1, .items [x] => serialize f (.val x)
  | f + 1, .items (x :: y :: xs) => serialize f (.val x) ++ ", " ++ serialize f (.items (y :: xs))
  | _, .fields [] => ""
  | 0, .fields (_ :: _) => ""
  | f + 1, .fields [(k, v)] => jsonQuote k ++ ": " ++ serialize f (.val v)
  | f + 1, .fields ((k, v) :: p :: fs) =>
      jsonQuote k ++ ": " ++ serialize f (.val v) ++ ", " ++ serialize f (.fields (p :: fs))

/-- `json.dumps(j, sort_keys=True)`. -/
def dumps (j : Json) : String := serialize (jsonFuel j) (.val j)

/-- Fuelled insertion/deletion edit distance.  With enough fuel (the sum of
the lengths always suffices, see `lev_distance`) this is the Levenshtein
distance with substitution cost 2 that `Levenshtein.ratio` is built from. -/
def levAux : Nat → List Char → List Char → Nat
  | _, [], ys => ys.length
  | _, _ :: xs, [] => xs.length + 1
  | 0, _ :: _, _ :: _ => 0
  | f + 1, x :: xs, y :: ys =>
      if x = y then levAux f xs ys
      else 1 + min (levAux f xs (y :: ys)) (levAux f (x :: xs) ys)

/-- The edit distance underlying `Levenshtein.ratio`. -/
def lev_distance (s t : List Char) : Nat := levAux (s.length + t.length) s t

/-- `Levenshtein.ratio(s, t)` of python-Levenshtein:
`(lensum - distance) / lensum`, and `1.0` when both strings are empty. -/
def levSimilarity (s t : String) : ℚ :=
  if s.data.length + t.data.length = 0 then 1
  else ((s.data.length + t.data.length : ℚ) - (lev_distance s.data t.data : ℚ))
        / (s.data.length + t.data.length : ℚ)

/-- Enumeration for categorizing OCR errors (src/app.py, class ErrorCategory). -/
inductive ErrorCategory where
  | CORRECT : ErrorCategory
  | HALLUCINATION : ErrorCategory
  | PARTIAL_INCORRECT : ErrorCategory
  | NO_EXTRACTION : ErrorCategory
deriving DecidableEq

/-- `OCRValidator.compare_results` (src/app.py lines 143-168): empty observed
dict short-circuits to `(0.0, NO_EXTRACTION)`; otherwise both dicts are
serialized with `json.dumps(_, sort_keys=True)`, scored with
`Levenshtein.ratio`, and classified `CORRECT` at ratio `1.0`,
`HALLUCINATION` below `0.3`, `PARTIAL_INCORRECT` otherwise.  (The local
variable is called `distance` in the source although it holds the ratio.) -/
def compare_results (true_json extracted_json : Record) : ℚ × ErrorCategory :=
  if extracted_json.isEmpty then (0, ErrorCategory.NO_EXTRACTION)
  else
    let true_str := dumps (Json.obj true_json)
    let extracted_str := dumps (Json.obj extracted_json)
    let distance := levSimilarity true_str extracted_str
    if distance = 1 then (distance, ErrorCategory.CORRECT)
    else if distance < 3 / 10 then (distance, ErrorCategory.HALLUCINATION)
    else (distance, ErrorCategory.PARTIAL_INCORRECT)

/-- Modelled from the spec (§4.1, claim C3): the classification policy,
applied in order: ratio `1.0` is `CORRECT`, ratio below `0.3` is
`HALLUCINATION`, anything else `PARTIAL_INCORRECT`. -/
def classify_ref (r : ℚ) : ErrorCategory :=
  if r = 1 then ErrorCategory.CORRECT
  else if r < 3 / 10 then ErrorCategory.HALLUCINATION
  else ErrorCategory.PARTIAL_INCORRECT

/-- Modelled from the spec (§4.1, claim C3): the reference scorer.  If
`observed` is empty, return `(0.0, NO_EXTRACTION)` before and instead of any
content comparison; otherwise serialize both records canonically with keys
sorted, take the normalized edit-distance similarity of the two strings and
classify it with `classify_ref`. -/
def score_ref (truth observed : Record) : ℚ × ErrorCategory :=
  if observed.isEmpty then (0, ErrorCategory.NO_EXTRACTION)
  else
    let r := levSimilarity (dumps (Json.obj truth)) (dumps (Json.obj observed))
    (r, classify_ref r)

/-- `itertools.combinations(l, r)`: every `r`-element sublist of `l`, keeping
the input order inside each sublist, enumerated lexicographically with
respect to positions in `l` (those containing the first element come first,
in the order of the remaining choices, followed by those avoiding it). -/
def combinations : Nat → List α → List (List α)
  | 0, _ => [[]]
  | _ + 1, [] => []
  | r + 1, x :: xs => (combinations r xs).map (fun s => x :: s) ++ combinations (r + 1) xs

/-- The distortion-subset enumeration of `validate_image` (src/app.py lines
203-209): `for r in range(len(distortion_list) + 1)` over
`itertools.combinations(distortion_list, r)`, skipping the empty
combination. -/
def enumerateDistortions (distortion_list : List String) : List (List String) :=
  ((List.range (distortion_list.length + 1)).flatMap
      (fun r => combinations r distortion_list)).filter (fun ds => !ds.isEmpty)

/-- Data class storing one validation result (src/app.py lines 50-60).
`levenshtein_distance` holds the similarity ratio, as in the source. -/
structure ValidationResult where
  image_name : String
  distortions : List String
  true_json : Record
  extracted_json : Record
  levenshtein_distance : ℚ
  error_category : ErrorCategory
  claude_analysis : Option String

/-- The validator (src/app.py, class OCRValidator).  The Anthropic client and
PIL are external collaborators, embedded as oracle fields:

* `encode_image` models the method of the same name (PIL `Image.open` plus
  base64 encoding); `.error` models the exception raised by an unreadable
  file.
* `extract` models one `client.messages.create` call of
  `get_claude_extraction` *together with* the `json.loads` parse of its
  response: `.ok r` is a successfully parsed record, `.error` any transport
  or parse exception.  The `Nat` argument is the sequence number of the
  extraction call for the image being processed, so that successive calls
  may answer differently.
* `analyze` models one `client.messages.create` call of
  `get_claude_analysis` (sequence-numbered likewise); `.error` models a
  raised exception.

`base_image_dir` is dropped: directory globbing is filesystem plumbing and
`run_validation` below takes the discovered image paths as an argument. -/
structure OCRValidator where
  encode_image : String → Except String String
  extract : Nat → String → String → Except String Record
  analyze : Nat → Record → Record → Except String String
  distortion_list : List String
  levenshtein_threshold : ℚ
  perform_claude_analysis : Bool

/-- The fixed extraction instruction of src/app.py lines 199-201 and 213-215. -/
def extractPrompt : String := "Extract form fields and return as JSON"

/-- `OCRValidator.get_claude_extraction` (src/app.py lines 104-141): the API
call and the JSON parse sit inside `try:`; any exception is logged and the
empty dict is returned.  `client k image_base64 system_prompt` is the answer
of the oracle for the `k`-th call. -/
def get_claude_extraction (client : Nat → String → String → Except String Record)
    (k : Nat) (image_base64 : String) (system_prompt : String) : Record :=
  match client k image_base64 system_prompt with
  | .ok r => r
  | .error _ => []

/-- `OCRValidator.get_claude_analysis` (src/app.py lines 170-189): builds a
prompt from both records and calls the API with **no** `try/except`, so an
exception propagates to the caller.  The prompt construction and response
unpacking are part of the oracle. -/
def get_claude_analysis (client : Nat → Record → Record → Except String String)
    (k : Nat) (true_json extracted_json : Record) : Except String String :=
  client k true_json extracted_json

/-- `OCRValidator.apply_distortions` (src/app.py lines 96-102): a placeholder
that ignores `distortions` and returns `encode_image(image_path)`. -/
def OCRValidator.apply_distortions (v : OCRValidator) (image_path : String)
    (distortions : List String) : Except String String :=
  v.encode_image image_path

/-- Lines 222-230 of src/app.py: `claude_analysis = None`, then, if the
analysis flag is set and the ratio is below the threshold, the unguarded
`get_claude_analysis` call.  Returns the next analysis-call sequence number
together with the optional analysis text; `.error` is the propagating
exception. -/
def analysis_step (v : OCRValidator) (kA : Nat) (true_json extracted_json : Record)
    (distance : ℚ) : Except String (Nat × Option String) :=
  if v.perform_claude_analysis = true ∧ distance < v.levenshtein_threshold then
    match get_claude_analysis v.analyze kA true_json extracted_json with
    | .error e => .error e
    | .ok text => .ok (kA + 1, some text)
  else .ok (kA, none)

/-- The body of the `for distortions in ...` loop of `validate_image`
(src/app.py lines 204-248), processing the remaining distortion subsets.
`kE` and `kA` are the sequence numbers of the next extraction and analysis
calls (the ground-truth extraction was call `0`).  An exception anywhere in
an iteration — unreadable image, or a failing analysis call — propagates,
discarding the results of the image, exactly as in the unguarded source loop. -/
def validate_loop (v : OCRValidator) (image_path : String) (true_json : Record) :
    Nat → Nat → List (List String) → Except String (List ValidationResult)
  | _, _, [] => .ok []
  | kE, kA, distortions :: rest =>
    match v.apply_distortions image_path distortions with
    | .error e => .error e
    | .ok distorted_image =>
      let extracted_json := get_claude_extraction v.extract kE distorted_image extractPrompt
      let scored := compare_results true_json extracted_json
      match analysis_step v kA true_json extracted_json scored.1 with
      | .error e => .error e
      | .ok (kA2, claude_analysis) =>
        match validate_loop v image_path true_json (kE + 1) kA2 rest with
        | .error e => .error e
        | .ok rest_results =>
          .ok (⟨image_path, distortions, true_json, extracted_json,
                scored.1, scored.2, claude_analysis⟩ :: rest_results)

/-- `OCRValidator.validate_image` (src/app.py lines 191-250): encode the base
image, extract the ground truth (extraction call `0`; its own failure is
absorbed into the empty dict by `get_claude_extraction`), then run the loop
over every non-empty distortion combination.  `image_name` is the path
(modelling `image_path.name`). -/
def OCRValidator.validate_image (v : OCRValidator) (image_path : String) :
    Except String (List ValidationResult) :=
  match v.encode_image image_path with
  | .error e => .error e
  | .ok base_image =>
    let true_json := get_claude_extraction v.extract 0 base_image extractPrompt
    validate_loop v image_path true_json 1 0 (enumerateDistortions v.distortion_list)

/-- `list(executor.map(self.validate_image, image_paths))` in
`run_validation` (src/app.py lines 266-268): results are collected in input
order and the first exception raised by the runner of any image re-raises
when its slot is read, aborting the collection. -/
def run_images (v : OCRValidator) : List String → Except String (List (List ValidationResult))
  | [] => .ok []
  | p :: ps =>
    match v.validate_image p with
    | .error e => .error e
    | .ok rs =>
      match run_images v ps with
      | .error e => .error e
      | .ok rest => .ok (rs :: rest)

/-- `OCRValidator.run_validation` (src/app.py lines 252-306) restricted to
its data flow: run every image and flatten the per-image result lists (the
`self.results` list the returned DataFrame is built from; the DataFrame
rendering and the summary statistics are output plumbing). -/
def OCRValidator.run_validation (v : OCRValidator) (image_paths : List String) :
    Except String (List ValidationResult) :=
  match run_images v image_paths with
  | .error e => .error e
  | .ok all_results => .ok all_results.flatten

/-- `ImageDistorter` (src/image_distortions.py): the four PIL transformations
are external collaborators, embedded as fields over an abstract image type
`α` (the `noise` transform draws from `np.random`; each field stands for the
transformation with its default parameters as one function). -/
structure ImageDistorter (α : Type) where
  blur : α → α
  noise : α → α
  rotation : α → α
  compression : α → α

/-- The `distortion_map` lookup of `ImageDistorter.apply_distortions`
(src/image_distortions.py lines 37-42). -/
def ImageDistorter.distortion_map (d : ImageDistorter α) (name : String) : Option (α → α) :=
  if name = "blur" then some d.blur
  else if name = "noise" then some d.noise
  else if name = "rotation" then some d.rotation
  else if name = "compression" then some d.compression
  else none

/-- `ImageDistorter.apply_distortions` (src/image_distortions.py lines
34-48): fold the recognized transformations over a copy of the image,
silently skipping names not in `distortion_map` (`image.copy()` is identity
in this pure embedding). -/
def ImageDistorter.apply_distortions (d : ImageDistorter α) (image : α)
    (distortions : List String) : α :=
  distortions.foldl
    (fun result name =>
      match d.distortion_map name with
      | some f => f result
      | none => result)
    image

theorem levAux_le : ∀ (f : Nat) (xs ys : List Char), levAux f xs ys ≤ xs.length + ys.length := by
  intro f
  induction f with
  | zero =>
    intro xs ys
    match xs, ys with
    | [], ys => simp [levAux]
    | x :: xs, [] => simp [levAux]
    | x :: xs, y :: ys => simp [levAux]
  | succ f ih =>
    intro xs ys
    match xs, ys with
    | [], ys => simp [levAux]
    | x :: xs, [] => simp [levAux]
    | x :: xs, y :: ys =>
      simp only [levAux, List.length_cons]
      split
      · have := ih xs ys
        omega
      · have h1 := ih xs (y :: ys)
        have h2 := ih (x :: xs) ys
        simp only [List.length_cons] at h1 h2
        omega

theorem levAux_self : ∀ (xs : List Char) (f : Nat), xs.length ≤ f → levAux f xs xs = 0 := by
  intro xs
  induction xs with
  | nil => intro f _; cases f <;> simp [levAux]
  | cons x xs ih =>
    intro f hf
    simp only [List.length_cons] at hf
    cases f with
    | zero => omega
    | succ f =>
      simp only [levAux, if_pos rfl]
      exact ih f (by omega)

theorem levAux_eq_zero_iff : ∀ (f : Nat) (xs ys : List Char),
    xs.length + ys.length ≤ f → (levAux f xs ys = 0 ↔ xs = ys) := by
  intro f
  induction f with
  | zero =>
    intro xs ys h
    match xs, ys with
    | [], ys => simp [levAux, List.length_eq_zero, eq_comm]
    | x :: xs, [] => simp [levAux]
    | x :: xs, y :: ys => simp at h
  | succ f ih =>
    intro xs ys h
    match xs, ys with
    | [], ys => simp [levAux, List.length_eq_zero, eq_comm]
    | x :: xs, [] => simp [levAux]
    | x :: xs, y :: ys =>
      simp only [List.length_cons] at h
      simp only [levAux]
      split
      · rename_i heq
        subst heq
        rw [ih xs ys (by omega)]
        simp
      · rename_i hne
        have hz : 1 + min (levAux f xs (y :: ys)) (levAux f (x :: xs) ys) ≠ 0 := by omega
        simp [hz, hne]

theorem levSimilarity_self (s : String) : levSimilarity s s = 1 := by
  unfold levSimilarity lev_distance
  rcases Nat.eq_zero_or_pos s.data.length with h | h
  · simp [h]
  · have hz : levAux (s.data.length + s.data.length) s.data s.data = 0 :=
      levAux_self s.data _ (by omega)
    rw [if_neg (by omega), hz]
    have hne : ((s.data.length : ℚ) + (s.data.length : ℚ)) ≠ 0 := by
      have : (0 : ℚ) < (s.data.length : ℚ) := by exact_mod_cast h
      linarith
    push_cast
    rw [sub_zero, div_self hne]

theorem levSimilarity_nonneg (s t : String) : 0 ≤ levSimilarity s t := by
  unfold levSimilarity lev_distance
  split
  · norm_num
  · rename_i h
    have hle := levAux_le (s.data.length + t.data.length) s.data t.data
    have hpos : (0 : ℚ) < ((s.data.length : ℚ) + (t.data.length : ℚ)) := by
      have : 0 < s.data.length + t.data.length := Nat.pos_of_ne_zero h
      exact_mod_cast this
    apply div_nonneg _ (le_of_lt hpos)
    rw [sub_nonneg]
    exact_mod_cast hle

theorem levSimilarity_le_one (s t : String) : levSimilarity s t ≤ 1 := by
  unfold levSimilarity lev_distance
  split
  · exact le_refl 1
  · rename_i h
    have hpos : (0 : ℚ) < ((s.data.length : ℚ) + (t.data.length : ℚ)) := by
      have : 0 < s.data.length + t.data.length := Nat.pos_of_ne_zero h
      exact_mod_cast this
    rw [div_le_one hpos]
    have : (0 : ℚ) ≤ (levAux (s.data.length + t.data.length) s.data t.data : ℚ) := by
      exact_mod_cast Nat.zero_le _
    linarith

/-- C3: `compare_results` coincides with the reference
scorer of the specification: an empty observed record short-circuits to `(0.0, NO_EXTRACTION)`
before any content comparison; otherwise both records are serialized to
canonical sorted-key JSON, the normalized edit-distance similarity ratio
(always in `[0, 1]`) is computed, and the category is `CORRECT` at ratio
`1.0`, `HALLUCINATION` below `0.3`, and `PARTIAL_INCORRECT` otherwise. -/
theorem C3_scorer_refinement (truth observed : Record) :
    compare_results truth observed = score_ref truth observed
    ∧ 0 ≤ (compare_results truth observed).1
    ∧ (compare_results truth observed).1 ≤ 1 := by
  unfold compare_results score_ref classify_ref
  by_cases h : observed.isEmpty
  · simp [h]
  · simp only [h, Bool.false_eq_true, if_false]
    have h0 := levSimilarity_nonneg (dumps (Json.obj truth)) (dumps (Json.obj observed))
    have h1 := levSimilarity_le_one (dumps (Json.obj truth)) (dumps (Json.obj observed))
    refine ⟨?_, ?_⟩
    · split_ifs <;> rfl
    · split_ifs <;> exact ⟨h0, h1⟩

/-- C6: `get_claude_extraction` never raises: when the external call or the
parse of its response fails (the oracle answers `.error`), it returns the
empty record, and downstream `compare_results` therefore classifies that
extraction as `(0.0, NO_EXTRACTION)` instead of aborting the pipeline. -/
theorem C6_extraction_fail_soft (client : Nat → String → String → Except String Record)
    (k : Nat) (image_base64 system_prompt e : String)
    (hfail : client k image_base64 system_prompt = .error e) :
    get_claude_extraction client k image_base64 system_prompt = []
    ∧ ∀ truth : Record,
        compare_results truth (get_claude_extraction client k image_base64 system_prompt)
          = (0, ErrorCategory.NO_EXTRACTION) := by
  unfold get_claude_extraction
  rw [hfail]
  exact ⟨rfl, fun truth => by simp [compare_results]⟩

/-- A client whose transport always fails, for the C6 witness. -/
def failing_client : Nat → String → String → Except String Record :=
  fun _ _ _ => .error "transport failure"

theorem C6_extraction_fail_soft_witness :
    get_claude_extraction failing_client 0 "IMG" extractPrompt = []
    ∧ compare_results [("a", Json.str "x")]
        (get_claude_extraction failing_client 0 "IMG" extractPrompt)
        = (0, ErrorCategory.NO_EXTRACTION) := by
  have h := C6_extraction_fail_soft failing_client 0 "IMG" extractPrompt "transport failure" rfl
  exact ⟨h.1, h.2 _⟩

/-- C10: `ImageDistorter.apply_distortions` silently ignores unrecognized
distortion names: applying a list of names equals applying the sublist of
names drawn from the known set, so a misspelled vocabulary entry is skipped
without any error. -/
theorem C10_unknown_names_skipped {α : Type} (d : ImageDistorter α) (image : α)
    (names : List String) :
    d.apply_distortions image names
      = d.apply_distortions image
          (names.filter
            (fun n => n ∈ (["blur", "noise", "rotation", "compression"] : List String))) := by
  induction names generalizing image with
  | nil => rfl
  | cons n rest ih =>
    by_cases h : n ∈ (["blur", "noise", "rotation", "compression"] : List String)
    · have hf : (n :: rest).filter
          (fun n => n ∈ (["blur", "noise", "rotation", "compression"] : List String))
          = n :: rest.filter
              (fun n => n ∈ (["blur", "noise", "rotation", "compression"] : List String)) :=
        List.filter_cons_of_pos (by simpa using h)
      rw [hf]
      simp only [ImageDistorter.apply_distortions, List.foldl_cons]
      exact ih _
    · have hmap : d.distortion_map n = none := by
        simp only [List.mem_cons, List.not_mem_nil, or_false, not_or] at h
        obtain ⟨h1, h2, h3, h4⟩ := h
        simp [ImageDistorter.distortion_map, h1, h2, h3, h4]
      have hf : (n :: rest).filter
          (fun n => n ∈ (["blur", "noise", "rotation", "compression"] : List String))
          = rest.filter
              (fun n => n ∈ (["blur", "noise", "rotation", "compression"] : List String)) :=
        List.filter_cons_of_neg (by simpa using h)
      rw [hf]
      simp only [ImageDistorter.apply_distortions, List.foldl_cons, hmap]
      exact ih image

theorem charListLe_total : ∀ a b : List Char, charListLe a b = true ∨ charListLe b a = true := by
  intro a
  induction a with
  | nil => intro b; left; rfl
  | cons x as ih =>
    intro b
    match b with
    | [] => right; rfl
    | y :: bs =>
      rcases lt_trichotomy x y with h | h | h
      · left; simp [charListLe, if_pos h]
      · subst h
        rcases ih bs with h' | h'
        · left; simp [charListLe, lt_irrefl, h']
        · right; simp [charListLe, lt_irrefl, h']
      · right; simp [charListLe, if_pos h]

theorem charListLe_trans : ∀ a b c : List Char,
    charListLe a b = true → charListLe b c = true → charListLe a c = true := by
  intro a
  induction a with
  | nil => intro b c _ _; rfl
  | cons x as ih =>
    intro b c hab hbc
    match b, c with
    | [], _ => simp [charListLe] at hab
    | y :: bs, [] => simp [charListLe] at hbc
    | y :: bs, z :: cs =>
      simp only [charListLe] at hab hbc ⊢
      by_cases hxy : x < y
      · by_cases hyz : y < z
        · simp [if_pos (lt_trans hxy hyz)]
        · by_cases hyz' : y = z
          · subst hyz'
            simp [if_pos hxy]
          · simp [if_neg hyz, if_neg hyz'] at hbc
      · by_cases hxy' : x = y
        · subst hxy'
          simp only [if_neg hxy, if_pos rfl] at hab
          by_cases hyz : x < z
          · simp [if_pos hyz]
          · by_cases hyz' : x = z
            · subst hyz'
              simp only [if_neg hyz, if_pos rfl] at hbc ⊢
              exact ih bs cs hab hbc
            · simp [if_neg hyz, if_neg hyz'] at hbc
        · simp [if_neg hxy, if_neg hxy'] at hab

theorem charListLe_antisymm : ∀ a b : List Char,
    charListLe a b = true → charListLe b a = true → a = b := by
  intro a
  induction a with
  | nil =>
    intro b _ hba
    match b with
    | [] => rfl
    | y :: bs => simp [charListLe] at hba
  | cons x as ih =>
    intro b hab hba
    match b with
    | [] => simp [charListLe] at hab
    | y :: bs =>
      simp only [charListLe] at hab hba
      by_cases hxy : x < y
      · have h1 : ¬y < x := asymm hxy
        have h2 : ¬y = x := fun h => lt_irrefl x (h ▸ hxy)
        simp [if_neg h1, if_neg h2] at hba
      · by_cases hxy' : x = y
        · subst hxy'
          simp only [if_neg hxy, if_pos rfl] at hab hba
          rw [ih bs hab hba]
        · simp [if_neg hxy, if_neg hxy'] at hab

instance : IsTotal (String × Json) keyLe :=
  ⟨fun a b => charListLe_total a.1.data b.1.data⟩

instance : IsTrans (String × Json) keyLe :=
  ⟨fun a b c => charListLe_trans a.1.data b.1.data c.1.data⟩

/-- The strict version of `keyLe`, used to show that a sorted unique-keyed
field list is determined by its multiset of fields. -/
def keyLt (a b : String × Json) : Prop := keyLe a b ∧ a.1 ≠ b.1

instance : IsAntisymm (String × Json) keyLt :=
  ⟨fun a b hab hba => by
    have hdata : a.1.data = b.1.data := charListLe_antisymm _ _ hab.1 hba.1
    have : a.1 = b.1 := by
      cases h1 : a.1 with
      | mk l1 =>
        cases h2 : b.1 with
        | mk l2 =>
          rw [h1, h2] at hdata
          exact congrArg String.mk (by simpa using hdata)
    exact absurd this hab.2⟩

theorem sortFields_perm (fs : List (String × Json)) : (sortFields fs).Perm fs :=
  List.perm_insertionSort keyLe fs

theorem sortFields_sorted (fs : List (String × Json)) : List.Sorted keyLe (sortFields fs) :=
  List.sorted_insertionSort keyLe fs

theorem sorted_keyLt_of_nodup_keys (fs : List (String × Json))
    (hs : List.Sorted keyLe fs) (hk : (fs.map Prod.fst).Nodup) :
    List.Sorted keyLt fs := by
  have hne : fs.Pairwise (fun a b : String × Json => a.1 ≠ b.1) := by
    rw [List.Nodup, List.pairwise_map] at hk
    exact hk
  exact hs.and hne

theorem sortFields_eq_of_perm (fs gs : List (String × Json))
    (hperm : fs.Perm gs) (hkeys : (fs.map Prod.fst).Nodup) :
    sortFields fs = sortFields gs := by
  have hp : (sortFields fs).Perm (sortFields gs) :=
    (sortFields_perm fs).trans (hperm.trans (sortFields_perm gs).symm)
  have hk1 : ((sortFields fs).map Prod.fst).Nodup :=
    (((sortFields_perm fs).map Prod.fst).nodup_iff).mpr hkeys
  have hk2 : ((sortFields gs).map Prod.fst).Nodup :=
    (((sortFields_perm gs).map Prod.fst).nodup_iff).mpr
      (((hperm.map Prod.fst).nodup_iff).mp hkeys)
  exact List.eq_of_perm_of_sorted hp
    (sorted_keyLt_of_nodup_keys _ (sortFields_sorted fs) hk1)
    (sorted_keyLt_of_nodup_keys _ (sortFields_sorted gs) hk2)

theorem fieldsFuel_cons (p : String × Json) (fs : List (String × Json)) :
    fieldsFuel (p :: fs) = 1 + jsonFuel p.2 + fieldsFuel fs := by
  rcases p with ⟨k, v⟩
  rfl

theorem fieldsFuel_perm {fs gs : List (String × Json)} (h : fs.Perm gs) :
    fieldsFuel fs = fieldsFuel gs := by
  induction h with
  | nil => rfl
  | cons x _ ih => rw [fieldsFuel_cons, fieldsFuel_cons, ih]
  | swap x y l => rw [fieldsFuel_cons, fieldsFuel_cons, fieldsFuel_cons, fieldsFuel_cons]; omega
  | trans _ _ ih1 ih2 => exact ih1.trans ih2

theorem dumps_obj_eq_of_perm (fs gs : List (String × Json))
    (hperm : fs.Perm gs) (hkeys : (fs.map Prod.fst).Nodup) :
    dumps (Json.obj fs) = dumps (Json.obj gs) := by
  unfold dumps
  have hfs : jsonFuel (Json.obj fs) = fieldsFuel gs + 1 := by
    show 1 + fieldsFuel fs = fieldsFuel gs + 1
    rw [fieldsFuel_perm hperm]
    omega
  have hgs : jsonFuel (Json.obj gs) = fieldsFuel gs + 1 := by
    show 1 + fieldsFuel gs = fieldsFuel gs + 1
    omega
  rw [hfs, hgs]
  show "\x7b" ++ serialize (fieldsFuel gs) (.fields (sortFields fs)) ++ "\x7d"
      = "\x7b" ++ serialize (fieldsFuel gs) (.fields (sortFields gs)) ++ "\x7d"
  rw [sortFields_eq_of_perm fs gs hperm hkeys]

/-- C4 counterexample: reflexivity fails at the empty record, because the
empty-observed check fires first: `compare_results({}, {})` is
`(0.0, NO_EXTRACTION)`, not `(1.0, CORRECT)`. -/
theorem C4_counterexample :
    compare_results [] [] = (0, ErrorCategory.NO_EXTRACTION)
    ∧ compare_results [] [] ≠ (1, ErrorCategory.CORRECT) := by
  constructor
  · rfl
  · norm_num [compare_results]

/-- C4 (amended): for every non-empty record `R`, `compare_results R R`
returns ratio `1.0` and category `CORRECT`, and the result is independent of
the key insertion order of `R` (for the unique keys a Python dict has):
any reordering of the fields of `R` also scores `(1.0, CORRECT)` against
`R`.  (For the empty record the empty-observed check answers
`(0.0, NO_EXTRACTION)` instead — see the counterexample.) -/
theorem C4_reflexivity_amended (R R' : Record) (hne : R ≠ []) (hperm : R.Perm R')
    (hkeys : (R.map Prod.fst).Nodup) :
    compare_results R R = (1, ErrorCategory.CORRECT)
    ∧ compare_results R R' = (1, ErrorCategory.CORRECT) := by
  have hne' : R' ≠ [] := by
    intro h
    exact hne (List.Perm.eq_nil (h ▸ hperm))
  have hRe : R.isEmpty = false := by
    cases R with
    | nil => exact absurd rfl hne
    | cons a l => rfl
  have hR'e : R'.isEmpty = false := by
    cases R' with
    | nil => exact absurd rfl hne'
    | cons a l => rfl
  have hdeq : dumps (Json.obj R) = dumps (Json.obj R') :=
    dumps_obj_eq_of_perm R R' hperm hkeys
  constructor
  · simp only [compare_results, hRe, Bool.false_eq_true, if_false]
    rw [levSimilarity_self]
    simp
  · simp only [compare_results, hR'e, Bool.false_eq_true, if_false]
    rw [hdeq, levSimilarity_self]
    simp

theorem C4_reflexivity_amended_witness :
    compare_results [("a", Json.str "x"), ("b", Json.str "y")]
        [("a", Json.str "x"), ("b", Json.str "y")] = (1, ErrorCategory.CORRECT)
    ∧ compare_results [("a", Json.str "x"), ("b", Json.str "y")]
        [("b", Json.str "y"), ("a", Json.str "x")] = (1, ErrorCategory.CORRECT) :=
  C4_reflexivity_amended [("a", Json.str "x"), ("b", Json.str "y")]
    [("b", Json.str "y"), ("a", Json.str "x")]
    (List.cons_ne_nil _ _) (List.Perm.swap _ _ _) (by decide)

mutual

/-- The characters contributed by the own content of a JSON value (keys,
string values, digits), as opposed to the punctuation added by serialization. -/
def jsonChars : Json → List Char
  | .null => []
  | .bool _ => []
  | .num n => (toString n).data
  | .str s => s.data
  | .arr xs => jsonListChars xs
  | .obj fs => jsonFieldsChars fs

def jsonListChars : List Json → List Char
  | [] => []
  | x :: xs => jsonChars x ++ jsonListChars xs

def jsonFieldsChars : List (String × Json) → List Char
  | [] => []
  | (k, v) :: fs => k.data ++ jsonChars v ++ jsonFieldsChars fs

end

/-- The characters occurring in the keys and values of a record — its contents. -/
def recordChars (r : Record) : List Char := jsonFieldsChars r

/-- C8 counterexample: two non-empty, unequal, single-field records whose
contents (`a`,`b` versus `c`,`d`) share no characters nevertheless score
ratio `4/5 = 0.8` — far above `0.3` — and are classified
`PARTIAL_INCORRECT`, because the canonical serializations
`\x7b"a": "b"\x7d` and `\x7b"c": "d"\x7d` share all their JSON punctuation. -/
theorem C8_counterexample :
    (([("a", Json.str "b")] : Record) ≠ [])
    ∧ (([("c", Json.str "d")] : Record) ≠ [])
    ∧ ([("a", Json.str "b")] : Record) ≠ [("c", Json.str "d")]
    ∧ (∀ c ∈ recordChars [("a", Json.str "b")], c ∉ recordChars [("c", Json.str "d")])
    ∧ compare_results [("a", Json.str "b")] [("c", Json.str "d")]
        = (4 / 5, ErrorCategory.PARTIAL_INCORRECT)
    ∧ ¬((compare_results [("a", Json.str "b")] [("c", Json.str "d")]).1 < 3 / 10
        ∧ (compare_results [("a", Json.str "b")] [("c", Json.str "d")]).2
            = ErrorCategory.HALLUCINATION) := by
  have hne : ([("a", Json.str "b")] : Record) ≠ [("c", Json.str "d")] := by
    intro h
    injection h with h1 _
    injection h1 with h3 _
    exact absurd h3 (by decide)
  have hsim : levSimilarity "\x7b\"a\": \"b\"\x7d" "\x7b\"c\": \"d\"\x7d" = 4 / 5 := by
    have hl1 : ("\x7b\"a\": \"b\"\x7d" : String).data.length = 10 := by decide
    have hl2 : ("\x7b\"c\": \"d\"\x7d" : String).data.length = 10 := by decide
    have hlev : lev_distance ("\x7b\"a\": \"b\"\x7d" : String).data
        ("\x7b\"c\": \"d\"\x7d" : String).data = 4 := by decide
    unfold levSimilarity
    rw [hl1, hl2, hlev]
    norm_num
  have hs1 : dumps (Json.obj [("a", Json.str "b")]) = "\x7b\"a\": \"b\"\x7d" := rfl
  have hs2 : dumps (Json.obj [("c", Json.str "d")]) = "\x7b\"c\": \"d\"\x7d" := rfl
  have hcomp : compare_results [("a", Json.str "b")] [("c", Json.str "d")]
      = (4 / 5, ErrorCategory.PARTIAL_INCORRECT) := by
    simp only [compare_results, List.isEmpty_cons, Bool.false_eq_true, if_false, hs1, hs2, hsim]
    rw [if_neg (by norm_num), if_neg (by norm_num)]
  refine ⟨List.cons_ne_nil _ _, List.cons_ne_nil _ _, hne, by decide, hcomp, ?_⟩
  rw [hcomp]
  intro h
  exact absurd h.1 (by norm_num)

/-- C8 (amended): for any truth record and non-empty observed record,
`compare_results` classifies `HALLUCINATION` exactly when the similarity
ratio is strictly below `0.3`.  Character-disjoint contents do **not**
guarantee this (see the counterexample): the canonical JSON serializations
always share the structural punctuation, which counts toward the ratio. -/
theorem C8_hallucination_amended (t o : Record) (hne : o.isEmpty = false) :
    ((compare_results t o).2 = ErrorCategory.HALLUCINATION
      ↔ (compare_results t o).1 < 3 / 10) := by
  simp only [compare_results, hne, Bool.false_eq_true, if_false]
  split_ifs with h1 h2
  · constructor
    · intro h
      exact absurd h (by decide)
    · intro h
      rw [h1] at h
      norm_num at h
  · exact ⟨fun _ => h2, fun _ => rfl⟩
  · exact ⟨fun h => absurd h (by decide), fun h => absurd h h2⟩

theorem C8_hallucination_amended_witness :
    ((compare_results [("a", Json.str "b")] [("e", Json.str "f")]).2
        = ErrorCategory.HALLUCINATION
      ↔ (compare_results [("a", Json.str "b")] [("e", Json.str "f")]).1 < 3 / 10) :=
  C8_hallucination_amended [("a", Json.str "b")] [("e", Json.str "f")] rfl

theorem analysis_step_isSome (v : OCRValidator) (kA : Nat) (t o : Record) (d : ℚ)
    (res : Nat × Option String) (h : analysis_step v kA t o d = .ok res) :
    (res.2.isSome = true
      ↔ (v.perform_claude_analysis = true ∧ d < v.levenshtein_threshold)) := by
  unfold analysis_step at h
  split_ifs at h with hc
  · unfold get_claude_analysis at h
    cases hcall : v.analyze kA t o with
    | error e => rw [hcall] at h; cases h
    | ok text =>
      rw [hcall] at h
      injection h with h'
      constructor
      · intro _; exact hc
      · intro _; rw [← h']; rfl
  · injection h with h'
    rw [← h']
    simp [hc]

theorem validate_loop_analysis_iff (v : OCRValidator) (image_path : String) (t : Record) :
    ∀ (subsets : List (List String)) (kE kA : Nat) (results : List ValidationResult),
      validate_loop v image_path t kE kA subsets = .ok results →
      ∀ r ∈ results, (r.claude_analysis.isSome = true
        ↔ (v.perform_claude_analysis = true
            ∧ r.levenshtein_distance < v.levenshtein_threshold)) := by
  intro subsets
  induction subsets with
  | nil =>
    intro kE kA results h r hr
    unfold validate_loop at h
    injection h with h'
    rw [← h'] at hr
    cases hr
  | cons ds rest ih =>
    intro kE kA results h r hr
    unfold validate_loop at h
    cases henc : v.apply_distortions image_path ds with
    | error e => rw [henc] at h; cases h
    | ok b =>
      rw [henc] at h
      simp only [] at h
      cases hstep : analysis_step v kA t
          (get_claude_extraction v.extract kE b extractPrompt)
          (compare_results t (get_claude_extraction v.extract kE b extractPrompt)).1 with
      | error e => rw [hstep] at h; cases h
      | ok pair =>
        rcases pair with ⟨kA2, ca⟩
        rw [hstep] at h
        simp only [] at h
        cases hrest : validate_loop v image_path t (kE + 1) kA2 rest with
        | error e => rw [hrest] at h; cases h
        | ok rest_results =>
          rw [hrest] at h
          simp only [] at h
          injection h with h'
          rw [← h'] at hr
          rcases List.mem_cons.mp hr with rfl | hr'
          · exact analysis_step_isSome v kA t _ _ _ hstep
          · exact ih (kE + 1) kA2 rest_results hrest r hr'

/-- C7: in every emitted `ValidationResult`, the secondary-analysis text is
present exactly when the analysis feature flag is enabled **and** the
recorded similarity ratio is strictly below the configured threshold. -/
theorem C7_analysis_present_iff (v : OCRValidator) (image_path : String)
    (results : List ValidationResult)
    (hok : v.validate_image image_path = .ok results) :
    ∀ r ∈ results, (r.claude_analysis.isSome = true
      ↔ (v.perform_claude_analysis = true
          ∧ r.levenshtein_distance < v.levenshtein_threshold)) := by
  unfold OCRValidator.validate_image at hok
  cases henc : v.encode_image image_path with
  | error e => rw [henc] at hok; cases hok
  | ok b =>
    rw [henc] at hok
    exact validate_loop_analysis_iff v image_path _ _ 1 0 results hok

/-- A deterministic stub collaborator used by the C7 and C9 witnesses: the
ground-truth extraction succeeds, every later extraction fails its parse
(hence the empty record), and the analysis call succeeds. -/
def stub_validator : OCRValidator :=
  ⟨fun _ => .ok "IMG",
   fun k _ _ => if k = 0 then .ok [("a", Json.str "x")] else .error "no parse",
   fun _ _ _ => .ok "explanation",
   ["blur"], 1, true⟩

/-- The single result `stub_validator` produces for any image. -/
def stub_result : ValidationResult :=
  ⟨"img.png", ["blur"], [("a", Json.str "x")], [], 0, ErrorCategory.NO_EXTRACTION,
    some "explanation"⟩

theorem C7_analysis_present_iff_witness :
    stub_result.claude_analysis.isSome = true
      ↔ (stub_validator.perform_claude_analysis = true
          ∧ stub_result.levenshtein_distance < stub_validator.levenshtein_threshold) :=
  C7_analysis_present_iff stub_validator "img.png" [stub_result] rfl
    stub_result (List.mem_singleton.mpr rfl)

theorem validate_loop_extracted_from_base (v : OCRValidator) (image_path : String)
    (t : Record) (b : String) (henc : v.encode_image image_path = .ok b) :
    ∀ (subsets : List (List String)) (kE kA : Nat) (results : List ValidationResult),
      validate_loop v image_path t kE kA subsets = .ok results →
      ∀ r ∈ results, ∃ k,
        r.extracted_json = get_claude_extraction v.extract k b extractPrompt := by
  intro subsets
  induction subsets with
  | nil =>
    intro kE kA results h r hr
    unfold validate_loop at h
    injection h with h'
    rw [← h'] at hr
    cases hr
  | cons ds rest ih =>
    intro kE kA results h r hr
    unfold validate_loop at h
    have had : v.apply_distortions image_path ds = .ok b := henc
    rw [had] at h
    simp only [] at h
    cases hstep : analysis_step v kA t
        (get_claude_extraction v.extract kE b extractPrompt)
        (compare_results t (get_claude_extraction v.extract kE b extractPrompt)).1 with
    | error e => rw [hstep] at h; cases h
    | ok pair =>
      rcases pair with ⟨kA2, ca⟩
      rw [hstep] at h
      simp only [] at h
      cases hrest : validate_loop v image_path t (kE + 1) kA2 rest with
      | error e => rw [hrest] at h; cases h
      | ok rest_results =>
        rw [hrest] at h
        simp only [] at h
        injection h with h'
        rw [← h'] at hr
        rcases List.mem_cons.mp hr with rfl | hr'
        · exact ⟨kE, rfl⟩
        · exact ih (kE + 1) kA2 rest_results hrest r hr'

/-- C9: the in-source distortion application is a no-op — for every path and
every distortion list it returns exactly `encode_image(image_path)` — so
each extraction that `validate_image` labels with a distortion subset is in
fact performed on the undistorted base image: the observed record of every
emitted result is the answer of some extraction call on the base image. -/
theorem C9_distortions_noop (v : OCRValidator) (image_path : String) (ds : List String)
    (b : String) (results : List ValidationResult)
    (henc : v.encode_image image_path = .ok b)
    (hok : v.validate_image image_path = .ok results) :
    v.apply_distortions image_path ds = v.encode_image image_path
    ∧ ∀ r ∈ results, ∃ k,
        r.extracted_json = get_claude_extraction v.extract k b extractPrompt := by
  refine ⟨rfl, ?_⟩
  unfold OCRValidator.validate_image at hok
  rw [henc] at hok
  exact validate_loop_extracted_from_base v image_path _ b henc _ 1 0 results hok

theorem C9_distortions_noop_witness :
    stub_validator.apply_distortions "img.png" ["blur", "noise"]
        = stub_validator.encode_image "img.png"
    ∧ ∃ k, stub_result.extracted_json
        = get_claude_extraction stub_validator.extract k "IMG" extractPrompt := by
  have h := C9_distortions_noop stub_validator "img.png" ["blur", "noise"] "IMG"
    [stub_result] rfl rfl
  exact ⟨h.1, h.2 stub_result (List.mem_singleton.mpr rfl)⟩

theorem validate_loop_analysis_error (v : OCRValidator) (p : String) (t : Record)
    (kE kA : Nat) (ds : List String) (rest : List (List String)) (b msg : String)
    (had : v.apply_distortions p ds = .ok b)
    (hperf : v.perform_claude_analysis = true)
    (htrig : (compare_results t (get_claude_extraction v.extract kE b extractPrompt)).1
        < v.levenshtein_threshold)
    (hana : v.analyze kA t (get_claude_extraction v.extract kE b extractPrompt)
        = .error msg) :
    validate_loop v p t kE kA (ds :: rest) = .error msg := by
  have hstep : analysis_step v kA t (get_claude_extraction v.extract kE b extractPrompt)
      (compare_results t (get_claude_extraction v.extract kE b extractPrompt)).1
      = .error msg := by
    unfold analysis_step get_claude_analysis
    rw [if_pos ⟨hperf, htrig⟩, hana]
  unfold validate_loop
  rw [had]
  simp only [hstep]

/-- C2 (amended): a failure of the secondary-analysis call is **not**
absorbed: when the analysis flag is on and the ratio of the first distortion
subset falls below the threshold, a failing `get_claude_analysis` call makes
`validate_image` itself fail — the `ValidationResult` of that subset is not
emitted with an absent analysis field, and the remaining subsets of the image
are never processed.  (Extraction call `0` is the ground truth and call `1` the
observation of the first subset; by the no-op of C9 both are on the base
image.) -/
theorem C2_analysis_failure_amended (v : OCRValidator) (image_path : String)
    (b msg : String) (ds : List String) (rest : List (List String))
    (henc : v.encode_image image_path = .ok b)
    (hsub : enumerateDistortions v.distortion_list = ds :: rest)
    (hperf : v.perform_claude_analysis = true)
    (htrig : (compare_results (get_claude_extraction v.extract 0 b extractPrompt)
        (get_claude_extraction v.extract 1 b extractPrompt)).1 < v.levenshtein_threshold)
    (hana : v.analyze 0 (get_claude_extraction v.extract 0 b extractPrompt)
        (get_claude_extraction v.extract 1 b extractPrompt) = .error msg) :
    v.validate_image image_path = .error msg := by
  unfold OCRValidator.validate_image
  rw [henc]
  simp only [hsub]
  exact validate_loop_analysis_error v image_path
    (get_claude_extraction v.extract 0 b extractPrompt) 1 0 ds rest b msg
    henc hperf htrig hana

/-- A collaborator whose ground-truth extraction answers Alice, whose subset
extraction answers Bob, and whose analysis call always fails. -/
def failing_analysis_validator : OCRValidator :=
  ⟨fun _ => .ok "IMG",
   fun k _ _ => if k = 0 then .ok [("name", Json.str "Alice")]
                else .ok [("name", Json.str "Bob")],
   fun _ _ _ => .error "analysis transport failure",
   ["blur"], 4 / 5, true⟩

/-- C2 counterexample: with the collaborator above (ratio
`24/32 = 0.75 < 0.8` triggers the analysis), `validate_image` raises the
analysis failure instead of emitting the result of the subset with
`claude_analysis` absent; no result of the image survives. -/
theorem C2_counterexample :
    failing_analysis_validator.validate_image "img.png"
        = .error "analysis transport failure"
    ∧ ∀ L, failing_analysis_validator.validate_image "img.png" ≠ .ok L := by
  have hsim : levSimilarity "\x7b\"name\": \"Alice\"\x7d" "\x7b\"name\": \"Bob\"\x7d"
      = 3 / 4 := by
    have hl1 : ("\x7b\"name\": \"Alice\"\x7d" : String).data.length = 17 := by decide
    have hl2 : ("\x7b\"name\": \"Bob\"\x7d" : String).data.length = 15 := by decide
    have hlev : lev_distance ("\x7b\"name\": \"Alice\"\x7d" : String).data
        ("\x7b\"name\": \"Bob\"\x7d" : String).data = 8 := by decide
    unfold levSimilarity
    rw [hl1, hl2, hlev]
    norm_num
  have hs1 : dumps (Json.obj [("name", Json.str "Alice")])
      = "\x7b\"name\": \"Alice\"\x7d" := rfl
  have hs2 : dumps (Json.obj [("name", Json.str "Bob")])
      = "\x7b\"name\": \"Bob\"\x7d" := rfl
  have hcomp : compare_results [("name", Json.str "Alice")] [("name", Json.str "Bob")]
      = (3 / 4, ErrorCategory.PARTIAL_INCORRECT) := by
    simp only [compare_results, List.isEmpty_cons, Bool.false_eq_true, if_false,
      hs1, hs2, hsim]
    rw [if_neg (by norm_num), if_neg (by norm_num)]
  have hmain : failing_analysis_validator.validate_image "img.png"
      = .error "analysis transport failure" := by
    have hloop := validate_loop_analysis_error failing_analysis_validator "img.png"
      [("name", Json.str "Alice")] 1 0 ["blur"] [] "IMG" "analysis transport failure"
      rfl rfl
      (by
        show (compare_results [("name", Json.str "Alice")]
          (get_claude_extraction failing_analysis_validator.extract 1 "IMG"
            extractPrompt)).1 < failing_analysis_validator.levenshtein_threshold
        rw [show get_claude_extraction failing_analysis_validator.extract 1 "IMG"
            extractPrompt = [("name", Json.str "Bob")] from rfl, hcomp]
        show (3 / 4 : ℚ) < 4 / 5
        norm_num)
      rfl
    exact hloop
  refine ⟨hmain, fun L h => ?_⟩
  rw [hmain] at h
  cases h

/-- The same failing-analysis collaborator with an always-triggering
configuration whose arithmetic the kernel can evaluate (threshold `1`,
failed subset extraction, hence ratio `0`). -/
def failing_analysis_validator2 : OCRValidator :=
  ⟨fun _ => .ok "IMG",
   fun k _ _ => if k = 0 then .ok [("a", Json.str "x")] else .error "no parse",
   fun _ _ _ => .error "analysis boom",
   ["blur"], 1, true⟩

theorem C2_analysis_failure_amended_witness :
    failing_analysis_validator2.validate_image "img.png" = .error "analysis boom" :=
  C2_analysis_failure_amended failing_analysis_validator2 "img.png" "IMG" "analysis boom"
    ["blur"] [] rfl rfl rfl (by decide) rfl

theorem run_images_error (v : OCRValidator) :
    ∀ (paths : List String) (p e : String), p ∈ paths →
      v.validate_image p = .error e →
      ∃ e', run_images v paths = .error e' := by
  intro paths
  induction paths with
  | nil => intro p e hp _; cases hp
  | cons q qs ih =>
    intro p e hp herr
    cases hq : v.validate_image q with
    | error e0 => exact ⟨e0, by simp [run_images, hq]⟩
    | ok rs =>
      rcases List.mem_cons.mp hp with rfl | hp'
      · rw [hq] at herr; cases herr
      · obtain ⟨e', he'⟩ := ih p e hp' herr
        exact ⟨e', by simp [run_images, hq, he']⟩

/-- C1 (amended): `run_validation` does **not** isolate per-image failures.
If the runner of any image in the list raises (`validate_image` answers
`.error`), the whole run raises: `list(executor.map(...))` re-raises the
exception when collecting, so the results of the other images are not
returned and the
failing image does not contribute an empty list. -/
theorem C1_fault_propagation_amended (v : OCRValidator) (image_paths : List String)
    (p e : String) (hp : p ∈ image_paths) (herr : v.validate_image p = .error e) :
    ∃ e', v.run_validation image_paths = .error e' := by
  obtain ⟨e', he'⟩ := run_images_error v image_paths p e hp herr
  exact ⟨e', by simp [OCRValidator.run_validation, he']⟩

/-- One healthy image and one unreadable one: `encode_image` raises on
`bad.png` only; extraction always fails its parse (absorbed to the empty
record), analysis is off. -/
def unreadable_image_validator : OCRValidator :=
  ⟨fun p => if p = "bad.png" then .error "unreadable file" else .ok "IMG",
   fun _ _ _ => .error "no extraction",
   fun _ _ _ => .ok "text",
   ["blur"], 1, false⟩

/-- C1 counterexample: the healthy image alone yields its full result list,
but running both images aborts with the exception of the unreadable file
instead of returning the results of the healthy image plus an empty
contribution. -/
theorem C1_counterexample :
    unreadable_image_validator.validate_image "good.jpg"
        = .ok [⟨"good.jpg", ["blur"], [], [], 0, ErrorCategory.NO_EXTRACTION, none⟩]
    ∧ unreadable_image_validator.run_validation ["good.jpg", "bad.png"]
        = .error "unreadable file"
    ∧ ∀ L, unreadable_image_validator.run_validation ["good.jpg", "bad.png"] ≠ .ok L := by
  refine ⟨rfl, rfl, fun L h => ?_⟩
  rw [show unreadable_image_validator.run_validation ["good.jpg", "bad.png"]
      = .error "unreadable file" from rfl] at h
  cases h

theorem C1_fault_propagation_amended_witness :
    ∃ e', unreadable_image_validator.run_validation ["good.jpg", "bad.png"] = .error e' :=
  C1_fault_propagation_amended unreadable_image_validator ["good.jpg", "bad.png"]
    "bad.png" "unreadable file" (by decide) rfl

theorem combinations_length {α : Type} : ∀ (r : Nat) (l : List α),
    (combinations r l).length = l.length.choose r := by
  intro r l
  induction l generalizing r with
  | nil =>
    cases r with
    | zero => rfl
    | succ r => rfl
  | cons x xs ih =>
    cases r with
    | zero => rfl
    | succ r =>
      simp only [combinations, List.length_append, List.length_map, ih, List.length_cons]
      rw [Nat.choose_succ_succ]

theorem combinations_mem_length {α : Type} : ∀ (r : Nat) (l : List α) (s : List α),
    s ∈ combinations r l → s.length = r := by
  intro r l
  induction l generalizing r with
  | nil =>
    intro s hs
    cases r with
    | zero => simp only [combinations, List.mem_singleton] at hs; simp [hs]
    | succ r => simp [combinations] at hs
  | cons x xs ih =>
    intro s hs
    cases r with
    | zero => simp only [combinations, List.mem_singleton] at hs; simp [hs]
    | succ r =>
      simp only [combinations, List.mem_append, List.mem_map] at hs
      rcases hs with ⟨t, ht, rfl⟩ | hs
      · simp [ih r t ht]
      · exact ih (r + 1) s hs

theorem combinations_sublist {α : Type} : ∀ (r : Nat) (l : List α) (s : List α),
    s ∈ combinations r l → s.Sublist l := by
  intro r l
  induction l generalizing r with
  | nil =>
    intro s hs
    cases r with
    | zero => simp only [combinations, List.mem_singleton] at hs; simp [hs]
    | succ r => simp [combinations] at hs
  | cons x xs ih =>
    intro s hs
    cases r with
    | zero =>
      simp only [combinations, List.mem_singleton] at hs
      simp [hs]
    | succ r =>
      simp only [combinations, List.mem_append, List.mem_map] at hs
      rcases hs with ⟨t, ht, rfl⟩ | hs
      · exact (ih r t ht).cons₂ x
      · exact (ih (r + 1) s hs).cons x

theorem combinations_ne_nil {α : Type} (r : Nat) (l : List α) (s : List α)
    (h : s ∈ combinations (r + 1) l) : s ≠ [] := by
  intro hnil
  have hlen := combinations_mem_length (r + 1) l s h
  rw [hnil] at hlen
  simp at hlen

theorem combinations_nodup {α : Type} : ∀ (r : Nat) (l : List α), l.Nodup →
    (combinations r l).Nodup := by
  intro r l
  induction l generalizing r with
  | nil =>
    intro _
    cases r with
    | zero => simp [combinations]
    | succ r => simp [combinations]
  | cons x xs ih =>
    intro hl
    rcases List.nodup_cons.mp hl with ⟨hx, hxs⟩
    cases r with
    | zero => simp [combinations]
    | succ r =>
      refine List.Nodup.append ((ih r hxs).map List.cons_injective)
        (ih (r + 1) hxs) ?_
      intro s hs1 hs2
      simp only [List.mem_map] at hs1
      rcases hs1 with ⟨t, _, rfl⟩
      exact hx ((combinations_sublist (r + 1) xs _ hs2).subset (List.mem_cons_self x t))

theorem combinations_pairwise_lex {α : Type} {R : α → α → Prop} :
    ∀ (r : Nat) (l : List α), l.Pairwise R →
      (combinations r l).Pairwise (List.Lex R) := by
  intro r l
  induction l generalizing r with
  | nil =>
    intro _
    cases r with
    | zero => simp [combinations]
    | succ r => simp [combinations]
  | cons x xs ih =>
    intro hl
    rcases List.pairwise_cons.mp hl with ⟨hx, hxs⟩
    cases r with
    | zero => simp [combinations]
    | succ r =>
      simp only [combinations]
      rw [List.pairwise_append]
      refine ⟨?_, ih (r + 1) hxs, ?_⟩
      · rw [List.pairwise_map]
        exact (ih r hxs).imp (fun h => List.Lex.cons h)
      · intro a ha b hb
        simp only [List.mem_map] at ha
        rcases ha with ⟨t, _, rfl⟩
        cases hbe : b with
        | nil => exact absurd hbe (combinations_ne_nil r xs b hb)
        | cons y bs =>
          subst hbe
          exact List.Lex.rel
            (hx y ((combinations_sublist (r + 1) xs _ hb).subset (List.mem_cons_self y bs)))

theorem enumerateDistortions_eq (l : List String) :
    enumerateDistortions l
      = (List.range l.length).flatMap (fun i => combinations (i + 1) l) := by
  unfold enumerateDistortions
  rw [List.range_succ_eq_map, List.flatMap_cons, List.flatMap_map, List.filter_append]
  have h1 : List.filter (fun ds => !ds.isEmpty) (combinations 0 l) = [] := by
    cases l <;> rfl
  have h2 : List.filter (fun ds => !ds.isEmpty)
      ((List.range l.length).flatMap fun a => combinations (Nat.succ a) l)
      = (List.range l.length).flatMap fun a => combinations (Nat.succ a) l := by
    rw [List.filter_eq_self]
    intro s hs
    rw [List.mem_flatMap] at hs
    rcases hs with ⟨i, _, hsi⟩
    have hne := combinations_ne_nil i l s hsi
    cases s with
    | nil => exact absurd rfl hne
    | cons a t => rfl
  rw [h1, h2, List.nil_append]

theorem enumerateDistortions_length (l : List String) :
    (enumerateDistortions l).length = 2 ^ l.length - 1 := by
  rw [enumerateDistortions_eq, List.length_flatMap]
  have h1 : List.map (List.length ∘ fun i => combinations (i + 1) l) (List.range l.length)
      = List.map (fun i => l.length.choose (i + 1)) (List.range l.length) :=
    List.map_congr_left (fun i _ => combinations_length (i + 1) l)
  rw [h1]
  have h2 : (List.map (fun i => l.length.choose (i + 1)) (List.range l.length)).sum
      = ∑ i ∈ Finset.range l.length, l.length.choose (i + 1) := rfl
  rw [h2]
  have h3 := Finset.sum_range_succ' (fun i => l.length.choose i) l.length
  rw [Nat.choose_zero_right] at h3
  have h4 := Nat.sum_range_choose l.length
  omega

/-- C5: for a duplicate-free vocabulary of `D ≥ 1` distortion names, the
subset enumeration of `validate_image` yields exactly `2 ^ D - 1` subsets,
all non-empty, all distinct, each drawn from the vocabulary, ordered by
increasing subset size and, within a size, lexicographically with respect to
any ordering of the vocabulary positions (any relation `R` under which the
vocabulary list is itself `Pairwise`-increasing); the empty subset never
occurs. -/
theorem C5_enumeration (vocab : List String) (hD : 1 ≤ vocab.length)
    (hnd : vocab.Nodup) :
    (enumerateDistortions vocab).length = 2 ^ vocab.length - 1
    ∧ (∀ s ∈ enumerateDistortions vocab, s ≠ [] ∧ s ⊆ vocab)
    ∧ (enumerateDistortions vocab).Nodup
    ∧ (∀ R : String → String → Prop, vocab.Pairwise R →
        (enumerateDistortions vocab).Pairwise
          (fun s t => s.length < t.length
            ∨ (s.length = t.length ∧ List.Lex R s t))) := by
  refine ⟨enumerateDistortions_length vocab, ?_, ?_, ?_⟩
  · intro s hs
    rw [enumerateDistortions_eq, List.mem_flatMap] at hs
    rcases hs with ⟨i, _, hsi⟩
    exact ⟨combinations_ne_nil i vocab s hsi,
      (combinations_sublist (i + 1) vocab s hsi).subset⟩
  · rw [enumerateDistortions_eq, List.nodup_flatMap]
    refine ⟨fun i _ => combinations_nodup (i + 1) vocab hnd, ?_⟩
    refine (List.pairwise_lt_range vocab.length).imp_of_mem ?_
    intro i j _ _ hij s hsi hsj
    have h1 := combinations_mem_length (i + 1) vocab s hsi
    have h2 := combinations_mem_length (j + 1) vocab s hsj
    omega
  · intro R hR
    rw [enumerateDistortions_eq, List.flatMap_def, List.pairwise_flatten]
    constructor
    · intro blk hblk
      simp only [List.mem_map] at hblk
      rcases hblk with ⟨i, _, rfl⟩
      refine (combinations_pairwise_lex (i + 1) vocab hR).imp_of_mem ?_
      intro s t hs ht hlex
      exact Or.inr ⟨by
        rw [combinations_mem_length (i + 1) vocab s hs,
          combinations_mem_length (i + 1) vocab t ht], hlex⟩
    · rw [List.pairwise_map]
      refine (List.pairwise_lt_range vocab.length).imp_of_mem ?_
      intro i j _ _ hij s hsi t htj
      refine Or.inl ?_
      rw [combinations_mem_length (i + 1) vocab s hsi,
        combinations_mem_length (j + 1) vocab t htj]
      omega

theorem C5_enumeration_witness :
    (enumerateDistortions ["blur", "noise"]).length = 2 ^ 2 - 1
    ∧ (enumerateDistortions ["blur", "noise"]).Nodup
    ∧ (["blur", "noise"] ∈ enumerateDistortions ["blur", "noise"]
        ∧ ["blur", "noise"] ≠ [] ∧ ["blur", "noise"] ⊆ ["blur", "noise"]) := by
  have h := C5_enumeration ["blur", "noise"] (by decide) (by decide)
  have hmem : ["blur", "noise"] ∈ enumerateDistortions ["blur", "noise"] := by decide
  have h2 := h.2.1 ["blur", "noise"] hmem
  exact ⟨h.1, h.2.2.1, hmem, h2.1, h2.2⟩

theorem jsonFuel_pos : ∀ j : Json, 1 ≤ jsonFuel j := by
  intro j
  cases j <;> simp [jsonFuel]

theorem listFuel_pos : ∀ xs : List Json, 1 ≤ listFuel xs := by
  intro xs
  cases xs with
  | nil => simp [listFuel]
  | cons x xs =>
    show 1 ≤ 1 + jsonFuel x + listFuel xs
    omega

theorem fieldsFuel_pos : ∀ fs : List (String × Json), 1 ≤ fieldsFuel fs := by
  intro fs
  cases fs with
  | nil => simp [fieldsFuel]
  | cons p fs => rw [fieldsFuel_cons]; omega

/-- The fuel a work item needs. -/
def taskFuel : SerTask → Nat
  | .val j => jsonFuel j
  | .items xs => listFuel xs
  | .fields fs => fieldsFuel fs

theorem taskFuel_pos : ∀ t : SerTask, 1 ≤ taskFuel t := by
  intro t
  cases t with
  | val j => exact jsonFuel_pos j
  | items xs => exact listFuel_pos xs
  | fields fs => exact fieldsFuel_pos fs

/-- Any two sufficient fuels serialize a work item identically: the fuelled
`serialize` never reaches its `0`-fuel fallbacks when given at least the
fuel of the item, so `dumps` (which supplies exactly `jsonFuel j`) computes
the total, fuel-free serialization. -/
theorem serialize_fuel_invariant :
    ∀ (f g : Nat) (t : SerTask), taskFuel t ≤ f → taskFuel t ≤ g →
      serialize f t = serialize g t := by
  intro f
  induction f with
  | zero =>
    intro g t hf _
    have := taskFuel_pos t
    omega
  | succ f ih =>
    intro g t hf hg
    have hg1 : 1 ≤ g := le_trans (taskFuel_pos t) hg
    obtain ⟨g, rfl⟩ : ∃ g', g = g' + 1 := ⟨g - 1, by omega⟩
    cases t with
    | val j =>
      cases j with
      | null => rfl
      | bool b => cases b <;> rfl
      | num n => rfl
      | str s => rfl
      | arr xs =>
        show "[" ++ serialize f (.items xs) ++ "]" = "[" ++ serialize g (.items xs) ++ "]"
        have hfx : taskFuel (.items xs) ≤ f := by
          have : taskFuel (.val (Json.arr xs)) = 1 + listFuel xs := rfl
          rw [this] at hf
          exact (by omega : listFuel xs ≤ f)
        have hgx : taskFuel (.items xs) ≤ g := by
          have : taskFuel (.val (Json.arr xs)) = 1 + listFuel xs := rfl
          rw [this] at hg
          exact (by omega : listFuel xs ≤ g)
        rw [ih g (.items xs) hfx hgx]
      | obj fs =>
        show "\x7b" ++ serialize f (.fields (sortFields fs)) ++ "\x7d"
            = "\x7b" ++ serialize g (.fields (sortFields fs)) ++ "\x7d"
        have hsort : fieldsFuel (sortFields fs) = fieldsFuel fs :=
          fieldsFuel_perm (sortFields_perm fs)
        have hfo : taskFuel (.val (Json.obj fs)) = 1 + fieldsFuel fs := rfl
        rw [hfo] at hf hg
        have hfx : taskFuel (.fields (sortFields fs)) ≤ f := by
          show fieldsFuel (sortFields fs) ≤ f
          omega
        have hgx : taskFuel (.fields (sortFields fs)) ≤ g := by
          show fieldsFuel (sortFields fs) ≤ g
          omega
        rw [ih g (.fields (sortFields fs)) hfx hgx]
    | items xs =>
      cases xs with
      | nil => rfl
      | cons x ys =>
        have hfi : taskFuel (.items (x :: ys)) = 1 + jsonFuel x + listFuel ys := rfl
        rw [hfi] at hf hg
        have hx : 1 ≤ jsonFuel x := jsonFuel_pos x
        have hy : 1 ≤ listFuel ys := listFuel_pos ys
        cases ys with
        | nil =>
          show serialize f (.val x) = serialize g (.val x)
          exact ih g (.val x) (by show jsonFuel x ≤ f; omega) (by show jsonFuel x ≤ g; omega)
        | cons y zs =>
          show serialize f (.val x) ++ ", " ++ serialize f (.items (y :: zs))
              = serialize g (.val x) ++ ", " ++ serialize g (.items (y :: zs))
          rw [ih g (.val x) (by show jsonFuel x ≤ f; omega) (by show jsonFuel x ≤ g; omega),
            ih g (.items (y :: zs)) (by show listFuel (y :: zs) ≤ f; omega)
              (by show listFuel (y :: zs) ≤ g; omega)]
    | fields fs =>
      cases fs with
      | nil => rfl
      | cons p qs =>
        rcases p with ⟨k, v⟩
        have hff : taskFuel (.fields ((k, v) :: qs)) = 1 + jsonFuel v + fieldsFuel qs := rfl
        rw [hff] at hf hg
        have hv : 1 ≤ jsonFuel v := jsonFuel_pos v
        have hq : 1 ≤ fieldsFuel qs := fieldsFuel_pos qs
        cases qs with
        | nil =>
          show jsonQuote k ++ ": " ++ serialize f (.val v)
              = jsonQuote k ++ ": " ++ serialize g (.val v)
          rw [ih g (.val v) (by show jsonFuel v ≤ f; omega) (by show jsonFuel v ≤ g; omega)]
        | cons q rs =>
          show jsonQuote k ++ ": " ++ serialize f (.val v) ++ ", "
                ++ serialize f (.fields (q :: rs))
              = jsonQuote k ++ ": " ++ serialize g (.val v) ++ ", "
                ++ serialize g (.fields (q :: rs))
          rw [ih g (.val v) (by show jsonFuel v ≤ f; omega) (by show jsonFuel v ≤ g; omega),
            ih g (.fields (q :: rs)) (by show fieldsFuel (q :: rs) ≤ f; omega)
              (by show fieldsFuel (q :: rs) ≤ g; omega)]

theorem dumps_eq_of_enough_fuel (j : Json) (f : Nat) (hf : jsonFuel j ≤ f) :
    serialize f (.val j) = dumps j :=
  serialize_fuel_invariant f (jsonFuel j) (.val j) hf (le_refl _)
